import Mathlib

/-!
Verification of the modusGraph code-generator subcomponent (structural
parsing of tagged record types, relationship inference, and deterministic
template-based code emission) against its natural-language specification.

The generator implementation (model.go, parser.go, inference.go,
generator.go and the template files) is not part of the provided sources;
only its tests, its main entry point, the README and design documents are.
Definitions below that embed the missing implementation are modelled from
the specification and checked against the expectations recorded in the
in-repository tests (generator_test.go, predicate_test.go) and the template
text embedded in docs/plans.
-/

namespace ModusGraph

/-! ## Intermediate model (IR) -/

/-- Modelled from the spec: the Field IR record of
cmd/modusgraph-gen/internal/model/model.go (not under src/).  A field
carries its declared Go name, its declared Go type expression, its
serialization (json) name, and the raw dgraph directive tag string. -/
structure Field where
  name : String
  goType : String
  jsonName : String
  dgraphTag : String
  deriving Repr, DecidableEq

/-- Modelled from the spec: the Entity IR record of model.go (not under
src/): an exported record type carrying both identity fields, with its
ordered fields and the searchability attributes derived by inference. -/
structure Entity where
  name : String
  fields : List Field
  searchable : Bool := false
  searchField : String := ""
  deriving Repr, DecidableEq

/-- Modelled from the spec: the Package IR record of model.go (not under
src/): the parse unit with its name, resolved module import path, ordered
entities, optional command-surface name and validation-hook flag. -/
structure Package where
  name : String
  modulePath : String
  entities : List Entity
  cliName : String := ""
  withValidator : Bool := false
  deriving Repr, DecidableEq

/-! ## Character-level string utilities

The built-in String.splitOn of Lean does not reduce inside the kernel, so splitting
and joining are implemented here over the underlying character lists, with
the semantics of the Go standard-library strings.Split / strings.Join for
a single-character separator. -/

/-- Split a character list on a separator character; mirrors the Go
strings.Split semantics (an empty input yields one empty group). -/
def splitOnChar (sep : Char) : List Char → List (List Char)
  | [] => [[]]
  | c :: rest =>
    match splitOnChar sep rest with
    | [] => if c = sep then [[], []] else [[c]]
    | g :: gs => if c = sep then [] :: g :: gs else (c :: g) :: gs

/-- Split a string on a separator character. -/
def splitStr (sep : Char) (s : String) : List String :=
  (splitOnChar sep s.data).map String.mk

/-- Join character lists with a separator character; mirrors the Go
strings.Join semantics. -/
def joinWith (sep : Char) : List (List Char) → List Char
  | [] => []
  | [g] => g
  | g :: gs => g ++ sep :: joinWith sep gs

/-- Join strings with a separator character. -/
def joinStr (sep : Char) (l : List String) : String :=
  String.mk (joinWith sep (l.map String.data))

/-! ## Dgraph tag directive parsing

The spec describes directive strings as a small embedded grammar of
space-separated tokens, each a bare flag or a key=value pair. -/

/-- Modelled from the spec: tokenize a dgraph tag string into its
space-separated directive tokens (the tag-string tokenizer of the parser,
not under src/). -/
def splitTag (tag : String) : List String :=
  (splitStr ' ' tag).filter (fun t => t != "")

/-- Modelled from the spec: split one directive token into its key and
optional value (key=value pairs versus bare flags). -/
def directiveKV (tok : String) : String × Option String :=
  match splitStr '=' tok with
  | [] => (tok, none)
  | [k] => (k, none)
  | k :: rest => (k, some (joinStr '=' rest))

/-- Modelled from the spec: the value of the directive with the given key
in a dgraph tag string, if present. -/
def tagValue (tag key : String) : Option String :=
  match (splitTag tag).find? (fun t => (directiveKV t).1 == key) with
  | some t => (directiveKV t).2
  | none => none

/-- The explicit predicate directive of a field, when one is present in
its storage directives. -/
def fieldPredicateDirective (f : Field) : Option String :=
  tagValue f.dgraphTag "predicate"

/-- Modelled from the spec: predicate resolution (inference.go, not under
src/) — the effective storage predicate of a field is the explicit
predicate directive if present, else the serialization name. -/
def effectivePredicate (f : Field) : String :=
  (fieldPredicateDirective f).getD f.jsonName

/-! ## Relationship inference (inference.go, not under src/) -/

/-- The names of all entities of a package. -/
def entityNames (p : Package) : List String :=
  p.entities.map (fun e => e.name)

/-- Modelled from the spec: the base type name of a declared Go type
expression, with slice and pointer wrappers removed (used by the type
classification pass to recognize edge fields by related entity name). -/
def baseTypeName (goType : String) : String :=
  let t1 := if goType.data.take 2 = ['[', ']'] then String.mk (goType.data.drop 2)
            else goType
  if t1.data.take 1 = ['*'] then String.mk (t1.data.drop 1) else t1

/-- Modelled from the spec: a field is an edge field when its base type
names another entity of the package. -/
def isEdgeField (names : List String) (f : Field) : Bool :=
  names.contains (baseTypeName f.goType)

/-- Modelled from the spec: a field declares a text-search-capable index
kind when its index directive lists the term or fulltext kind. -/
def textSearchCapable (f : Field) : Bool :=
  match tagValue f.dgraphTag "index" with
  | none => false
  | some v => (splitStr ',' v).any (fun k => k == "term" || k == "fulltext")

/-- Modelled from the spec: a search candidate is a scalar (non-edge)
field declaring a text-search-capable index kind. -/
def searchCandidate (names : List String) (f : Field) : Bool :=
  !(isEdgeField names f) && textSearchCapable f

/-- Modelled from the spec: the searchability determination pass — an
entity is marked searchable when some scalar field declares a
text-search-capable index kind; the first such field in declaration order
provides the search predicate, and the fields themselves are unchanged. -/
def inferSearch (names : List String) (e : Entity) : Entity :=
  match e.fields.filter (fun f => searchCandidate names f) with
  | [] => { e with searchable := false, searchField := "" }
  | f :: _ => { e with searchable := true, searchField := effectivePredicate f }

/-- Modelled from the spec: duplicate-predicate detection within one
entity — the first field whose effective predicate reappears on a later
field, together with that later field. -/
def dupPair : List Field → Option (Field × Field)
  | [] => none
  | f :: rest =>
    match rest.find? (fun g => effectivePredicate g == effectivePredicate f) with
    | some g => some (f, g)
    | none => dupPair rest

/-- Modelled from the spec: the first entity of the package carrying a
duplicate effective predicate, with the two offending fields. -/
def findDupEntity : List Entity → Option (Entity × Field × Field)
  | [] => none
  | e :: rest =>
    match dupPair e.fields with
    | some (f, g) => some (e, f, g)
    | none => findDupEntity rest

/-- Modelled from the spec: the duplicate-predicate inference error names
the offending entity and both fields. -/
def dupErrorMsg (ent fld1 fld2 : String) : String :=
  "entity " ++ ent ++ ": duplicate effective predicate: fields "
    ++ fld1 ++ " and " ++ fld2

/-- Modelled from the spec: the inference engine over a parsed package —
duplicate effective predicates are a hard error naming entity and both
fields; otherwise every entity receives its searchability attributes. -/
def inferPackage (p : Package) : Except String Package :=
  match findDupEntity p.entities with
  | some (e, f, g) => .error (dupErrorMsg e.name f.name g.name)
  | none => .ok { p with entities := p.entities.map (inferSearch (entityNames p)) }

/-! ## External imports computation (generator.go, not under src/) -/

/-- The package qualifier of a declared Go type expression: the part
before the first dot, when the type is package-qualified. -/
def pkgQualifier (goType : String) : Option String :=
  match splitStr '.' goType with
  | [] => none
  | [_] => none
  | q :: _ :: _ => some q

/-- Association-list lookup by string key, mirroring a Go map read. -/
def lookupKV {β : Type} : List (String × β) → String → Option β
  | [], _ => none
  | (k, v) :: rest, key => if k = key then some v else lookupKV rest key

/-- Modelled from the spec: an import path counts as an external package
path when it has a path separator (standard-library paths such as time do
not; TestExternalImports expects no import for the time package). -/
def isExternalPath (p : String) : Bool := p.data.contains '/'

/-- Modelled from the spec: the external import path contributed by one
field, if any — the type of the field must be package-qualified, the qualifier
must be known to the package-to-import-path mapping, and the mapped path
must be an external package path. -/
def fieldImportPath (imports : List (String × String)) (f : Field) : Option String :=
  match pkgQualifier f.goType with
  | none => none
  | some q =>
    match lookupKV imports q with
    | none => none
    | some path => if isExternalPath path then some path else none

/-- Insert a string into a sorted list, dropping it if already present. -/
def insertSortedDedup (x : String) : List String → List String
  | [] => [x]
  | y :: ys =>
    if x = y then y :: ys
    else if x < y then x :: y :: ys
    else y :: insertSortedDedup x ys

/-- Sort a list of strings lexicographically, removing duplicates. -/
def sortDedup (l : List String) : List String := l.foldr insertSortedDedup []

/-- Modelled from the spec: externalImports of generator.go (not under
src/) — one import path per distinct external package referenced by some
type of some field, sorted lexicographically; checked against every subtest of
TestExternalImports in src/unnamed/part_002. -/
def externalImports (fields : List Field) (imports : List (String × String)) : List String :=
  sortDedup (fields.filterMap (fieldImportPath imports))

/-! ## Name conversion (toSnakeCase) -/

/-- Modelled from the spec: the acronym-boundary test of the snake-case
conversion (generator.go, not under src/): an uppercase letter starts a
new word when the previous character is lowercase or a digit, or when it
is uppercase and the next character is lowercase (acronym boundary, then
new word). -/
def snakeBoundary (prev c : Char) (rest : List Char) : Bool :=
  c.isUpper &&
    (prev.isLower || prev.isDigit ||
      (prev.isUpper && (match rest with | r :: _ => r.isLower | [] => false)))

/-- Modelled from the spec: the tail of the snake-case conversion,
carrying the previous character. -/
def toSnakeAux : Char → List Char → List Char
  | _, [] => []
  | prev, c :: rest =>
      (if snakeBoundary prev c rest then ['_', c.toLower] else [c.toLower])
        ++ toSnakeAux c rest

/-- Modelled from the spec: conversion of a declaration-case identifier to
the lowercase delimiter-separated form (toSnakeCase in generator.go, not
under src/), checked against every vector of TestToSnakeCase in
src/unnamed/part_002. -/
def toSnakeCase (s : String) : String :=
  match s.data with
  | [] => ""
  | c :: rest => String.mk (c.toLower :: toSnakeAux c rest)

/-! ## Template generation (generator.go and templates, not under src/) -/

/-- The provenance marker required at the start of every generated file,
from TestGenerateHeader in src/unnamed/part_002. -/
def headerMarker : String := "// Code generated by modusGraphGen. DO NOT EDIT."

/-- The full header emitted at the top of every generated artifact. -/
def header : String := headerMarker ++ "\n\n"

/-- Whether a file content begins with the generated-code provenance
marker (byte prefix comparison). -/
def hasHeader (s : String) : Bool :=
  decide (s.data.take headerMarker.data.length = headerMarker.data)

/-- Modelled from the spec: the Record Parser (parser.go, not under src/)
excludes a file from re-parsing exactly when its content begins with the
generated-code header marker. -/
def parserSkipsGenerated (content : String) : Bool := hasHeader content

/-- Modelled from the spec: body of the shared client aggregator. -/
def renderClient (p : Package) : String :=
  "package " ++ p.name ++ "\n\n// Typed Client with sub-clients per entity: "
    ++ joinStr ',' (p.entities.map (fun e => e.name)) ++ "\n"

/-- Modelled from the spec: body of the pagination-options artifact. -/
def renderPageOptions (p : Package) : String :=
  "package " ++ p.name ++ "\n\n// First and Offset pagination options.\n"

/-- Modelled from the spec: body of the iteration-helpers artifact. -/
def renderIter (p : Package) : String :=
  "package " ++ p.name ++ "\n\n// Auto-paging SearchIter and ListIter.\n"

/-- Modelled from the spec: body of the per-entity CRUD artifact. -/
def renderEntity (p : Package) (e : Entity) : String :=
  "package " ++ p.name ++ "\n\n// Get, Add, Update, Delete, Search, List for "
    ++ e.name ++ "\n"

/-- Modelled from the spec: body of the per-entity functional options. -/
def renderOptions (p : Package) (e : Entity) : String :=
  "package " ++ p.name ++ "\n\n// Functional options for the scalar fields of "
    ++ e.name ++ "\n"

/-- Modelled from the spec: body of the per-entity fluent query builder. -/
def renderQuery (p : Package) (e : Entity) : String :=
  "package " ++ p.name ++ "\n\n// Fluent query builder for " ++ e.name ++ "\n"

/-- Modelled from the spec: body of the command-surface entry point. -/
def renderCli (p : Package) : String :=
  "package main\n\n// Kong CLI "
    ++ (if p.cliName = "" then p.name else p.cliName)
    ++ " for the " ++ p.name ++ " data model.\n"

/-- Modelled from the spec: the three package-scope artifacts (paths are
segment lists relative to the output root, as joined by filepath.Join). -/
def sharedFiles (p : Package) : List (List String × String) :=
  [(["client_gen.go"], header ++ renderClient p),
   (["page_options_gen.go"], header ++ renderPageOptions p),
   (["iter_gen.go"], header ++ renderIter p)]

/-- Modelled from the spec: the three entity-scope artifacts of one
entity, named from the snake-case entity name as in
TestGenerateOutputFiles. -/
def entityFiles (p : Package) (e : Entity) : List (List String × String) :=
  [([toSnakeCase e.name ++ "_gen.go"], header ++ renderEntity p e),
   ([toSnakeCase e.name ++ "_options_gen.go"], header ++ renderOptions p e),
   ([toSnakeCase e.name ++ "_query_gen.go"], header ++ renderQuery p e)]

/-- The default command-surface output directory: the cmd subdirectory of
the output root named after the package. -/
def defaultCliDir (p : Package) (outDir : List String) : List String :=
  outDir ++ ["cmd", p.name]

/-- Modelled from the spec: the Generate operation (generator.go, not
under src/) — renders the package-scope artifacts and the per-entity
artifacts under the output root, plus the command-surface entry point at
the override location when given, else at the default location.  Paths are
segment lists; contents are the emitted bytes. -/
def generate (p : Package) (outDir : List String) (cliDir : Option (List String)) :
    List (List String × String) :=
  (sharedFiles p ++ p.entities.flatMap (entityFiles p)).map
      (fun pc => (outDir ++ pc.1, pc.2))
    ++ [((cliDir.getD (defaultCliDir p outDir)) ++ ["main.go"], header ++ renderCli p)]

/-- Modelled from the spec: the whole pipeline after parsing — inference
first, and only on success is the Generator invoked. -/
def runPipeline (p : Package) (outDir : List String) (cliDir : Option (List String)) :
    Except String (List (List String × String)) :=
  match inferPackage p with
  | .error e => .error e
  | .ok m => .ok (generate m outDir cliDir)

/-- The files actually written by a run: none when inference fails. -/
def outputFiles (p : Package) (outDir : List String) (cliDir : Option (List String)) :
    List (List String × String) :=
  match runPipeline p outDir cliDir with
  | .error _ => []
  | .ok fs => fs

/-! ## Golden comparison (TestGenerate in src/unnamed/part_002) -/

/-- Split a file content into lines, as the golden test does. -/
def splitLines (s : String) : List String := splitStr '\n' s

/-- The line at an index, or the empty string past the end, as the golden
test pads the shorter side. -/
def lineAt (l : List String) (i : Nat) : String := l.getD i ""

/-- The number of line-level mismatches between a golden file and a
generated file, as counted by TestGenerate. -/
def diffLineCount (golden generated : String) : Nat :=
  ((List.range (max (splitLines golden).length (splitLines generated).length)).filter
    (fun i => lineAt (splitLines golden) i != lineAt (splitLines generated) i)).length

/-! ## Runtime store semantics for managed reverse edges

The runtime client (modusGraph itself) is not under src/ either; its
managed reverse-edge insert behaviour is modelled from the spec and the
README: when a parent is inserted with an embedded collection under a
managed reverse-edge field, each child receives the forward edge (the
predicate with the reverse sigil stripped) pointing at the parent. -/

/-- A stored graph node: identifier, scalar attributes, and edges
(predicate name to target identifiers). -/
structure RNode where
  uid : Nat
  attrs : List (String × String)
  edges : List (String × List Nat)
  deriving Repr, DecidableEq

/-- The runtime store: stored nodes and the next free identifier. -/
structure Store where
  nodes : List RNode
  nextUid : Nat
  deriving Repr, DecidableEq

/-- A fresh read of a node by identifier. -/
def getNode (s : Store) (u : Nat) : Option RNode :=
  s.nodes.find? (fun n => n.uid == u)

/-- A field is flagged as a managed reverse edge when its effective
predicate begins with the reverse-edge sigil. -/
def isManagedReverse (f : Field) : Bool :=
  match (effectivePredicate f).data with
  | c :: _ => c == '~'
  | [] => false

/-- The forward predicate of a managed reverse edge: the effective
predicate with the sigil stripped. -/
def forwardPredicate (f : Field) : String :=
  String.mk ((effectivePredicate f).data.drop 1)

/-- Modelled from the spec: inserting a parent whose collection under
field f embeds child records — the parent and the children are stored
under fresh identifiers, and when f is flagged as a managed reverse edge
each child is stored carrying the forward edge whose value is the parent
identifier.  Returns the new store, the parent identifier and the child
identifiers. -/
def insertParent (s : Store) (f : Field) (parentAttrs : List (String × String))
    (children : List (List (String × String))) : Store × Nat × List Nat :=
  let parentUid := s.nextUid
  let childUids := (List.range children.length).map (fun i => s.nextUid + 1 + i)
  let childEdges := if isManagedReverse f then [(forwardPredicate f, [parentUid])] else []
  let childNodes := (children.zip childUids).map
      (fun ac => ({ uid := ac.2, attrs := ac.1, edges := childEdges } : RNode))
  let parentNode : RNode :=
    { uid := parentUid, attrs := parentAttrs, edges := [(effectivePredicate f, childUids)] }
  ({ nodes := childNodes ++ parentNode :: s.nodes,
     nextUid := s.nextUid + 1 + children.length }, parentUid, childUids)

/-! ## Generated command-surface connection resolution

The connectString function and the surrounding main flow are taken from
the cli.go.tmpl template text embedded in
src/docs/plans/2026-02-27-merge-query-cli-plan.md (the template file
itself is not under src/). -/

/-- The default value of the remote-address flag of the generated CLI. -/
def defaultAddr : String := "dgraph://localhost:9080"

/-- The mutual-exclusion error message of the generated CLI (the two
leading dashes of each flag name are written as character escapes). -/
def mutualExclusionMsg : String :=
  "\x2d\x2daddr and \x2d\x2ddir are mutually exclusive"

/-- Resolve dot and dot-dot path components against a reversed output
stack, as the Go path cleaner does. -/
def cleanComponents (rooted : Bool) (comps : List String) : List String :=
  (comps.foldl
    (fun acc c =>
      if c = ".." then
        match acc with
        | [] => if rooted then [] else [".."]
        | a :: rest => if a = ".." then c :: acc else rest
      else c :: acc) []).reverse

/-- The Go standard-library filepath.Clean on slash-separated paths
(lexical cleaning: empty path becomes dot, repeated separators and dot
components are dropped, dot-dot components consume a parent, a rooted
path stays rooted). -/
def filepathClean (path : String) : String :=
  if path = "" then "."
  else
    let rooted := path.data.take 1 = ['/']
    let comps := (splitStr '/' path).filter (fun c => c != "" && c != ".")
    let s := joinStr '/' (cleanComponents rooted comps)
    if rooted then "/" ++ s
    else if s = "" then "." else s

/-- Modelled from the spec: connectString of the generated CLI, verbatim
from the cli.go.tmpl text in docs/plans — a non-empty directory flag with
a non-default address flag is a mutual-exclusion error; a directory flag
alone resolves to the file URI of the cleaned directory; otherwise the
address flag is returned. -/
def connectString (dir addr : String) : Except String String :=
  if dir ≠ "" then
    if addr ≠ defaultAddr then .error mutualExclusionMsg
    else .ok ("file://" ++ filepathClean dir)
  else .ok addr

/-- Modelled from the spec: the generated main exits on a connectString
error before any client is created, so the connection string actually used
is none exactly when resolution fails. -/
def cliConnect (dir addr : String) : Option String :=
  match connectString dir addr with
  | .error _ => none
  | .ok s => some s

/-! ## Concrete data from the repository sources, used as witnesses -/

/-- The Title field of PredicateFilm from src/predicate_test.go. -/
def predicateFilmTitle : Field :=
  { name := "Title", goType := "string", jsonName := "title",
    dgraphTag := "predicate=film_title index=exact unique" }

/-- The ReleaseDate field of PredicateFilm from src/predicate_test.go. -/
def predicateFilmReleaseDate : Field :=
  { name := "ReleaseDate", goType := "time.Time", jsonName := "releaseDate",
    dgraphTag := "predicate=release_date index=day" }

/-- The Name field of TestEntity from the README quickstart: a field with
no explicit predicate directive. -/
def testEntityName : Field :=
  { name := "Name", goType := "string", jsonName := "name",
    dgraphTag := "index=exact" }

/-- Fields of the NoExternalTypes subtest of TestExternalImports. -/
def noExtFields : List Field :=
  [{ name := "Name", goType := "string", jsonName := "", dgraphTag := "" },
   { name := "Created", goType := "time.Time", jsonName := "", dgraphTag := "" },
   { name := "Size", goType := "int64", jsonName := "", dgraphTag := "" }]

/-- Import mapping of the NoExternalTypes subtest. -/
def noExtImports : List (String × String) := [("time", "time")]

/-- Fields of the WithExternalPackage subtest of TestExternalImports. -/
def extFields : List Field :=
  [{ name := "Name", goType := "string", jsonName := "", dgraphTag := "" },
   { name := "TypeName", goType := "enums.ResourceType", jsonName := "", dgraphTag := "" },
   { name := "Status", goType := "enums.ArchiveStatus", jsonName := "", dgraphTag := "" },
   { name := "Created", goType := "time.Time", jsonName := "", dgraphTag := "" }]

/-- Import mapping of the WithExternalPackage subtest. -/
def extImports : List (String × String) :=
  [("time", "time"), ("enums", "github.com/example/project/enums")]

/-- A small demonstration entity (name chosen to exercise the snake-case
file naming of TestGenerateOutputFiles). -/
def demoEntity : Entity :=
  { name := "ContentRating",
    fields := [{ name := "Name", goType := "string", jsonName := "name",
                 dgraphTag := "index=exact" }] }

/-- A small demonstration package in the movies test fixture layout. -/
def demoPackage : Package :=
  { name := "movies",
    modulePath := "github.com/mlwelles/modusGraphMoviesProject",
    entities := [demoEntity] }

/-- A scalar field with a term index (text-search-capable). -/
def filmTitleField : Field :=
  { name := "Title", goType := "string", jsonName := "title",
    dgraphTag := "index=term" }

/-- A scalar field with a fulltext index (also text-search-capable). -/
def filmPlotField : Field :=
  { name := "Plot", goType := "string", jsonName := "plot",
    dgraphTag := "index=fulltext" }

/-- An entity with two text-search-capable scalar fields and distinct
predicates (searchability demonstration). -/
def searchDemoEntity : Entity :=
  { name := "Film", fields := [filmTitleField, filmPlotField] }

/-- A package holding the two-candidate search entity. -/
def searchDemoPackage : Package :=
  { name := "movies",
    modulePath := "github.com/mlwelles/modusGraphMoviesProject",
    entities := [searchDemoEntity] }

/-- An entity whose two fields resolve to the same effective predicate
(the second through an explicit predicate directive). -/
def dupDemoEntity : Entity :=
  { name := "Broken",
    fields := [{ name := "Name", goType := "string", jsonName := "name",
                 dgraphTag := "index=exact" },
               { name := "Nick", goType := "string", jsonName := "nick",
                 dgraphTag := "predicate=name index=exact" }] }

/-- A package holding the duplicate-predicate entity. -/
def dupDemoPackage : Package :=
  { name := "broken",
    modulePath := "example.com/broken",
    entities := [dupDemoEntity] }

/-- The Enrollments managed reverse-edge field of the README Course
example (serialization name carries the reverse sigil). -/
def enrollmentsField : Field :=
  { name := "Enrollments", goType := "[]*Enrollment", jsonName := "~in_course",
    dgraphTag := "reverse" }

/-- An empty runtime store. -/
def emptyStore : Store := { nodes := [], nextUid := 0 }

/-- The store after inserting a parent with two embedded children under
the managed reverse-edge field. -/
def reverseDemoStore : Store :=
  (insertParent emptyStore enrollmentsField []
    [[("grade", "A")], [("grade", "B")]]).1

/-! # Theorems -/

/-! ## Helper lemmas -/

theorem take_length_append {α : Type} (l₁ l₂ : List α) :
    (l₁ ++ l₂).take l₁.length = l₁ := by
  induction l₁ with
  | nil => rfl
  | cons a as ih => simp [ih]

theorem mem_insertSortedDedup (a x : String) (l : List String) :
    a ∈ insertSortedDedup x l ↔ a = x ∨ a ∈ l := by
  induction l with
  | nil => simp [insertSortedDedup]
  | cons y ys ih =>
    by_cases hxy : x = y
    · subst hxy
      simp [insertSortedDedup]
    · by_cases hlt : x < y
      · simp [insertSortedDedup, hxy, hlt]
      · simp only [insertSortedDedup, if_neg hxy, if_neg hlt, List.mem_cons, ih]
        tauto

theorem sorted_insertSortedDedup (x : String) (l : List String)
    (h : List.Sorted (· < ·) l) :
    List.Sorted (· < ·) (insertSortedDedup x l) := by
  induction l with
  | nil => simp [insertSortedDedup]
  | cons y ys ih =>
    rw [List.sorted_cons] at h
    obtain ⟨hy, hys⟩ := h
    by_cases hxy : x = y
    · subst hxy
      simp only [insertSortedDedup, if_pos (rfl : x = x)]
      exact List.sorted_cons.mpr ⟨hy, hys⟩
    · by_cases hlt : x < y
      · simp only [insertSortedDedup, if_neg hxy, if_pos hlt]
        refine List.sorted_cons.mpr ⟨?_, List.sorted_cons.mpr ⟨hy, hys⟩⟩
        intro b hb
        rcases List.mem_cons.mp hb with hb | hb
        · exact hb ▸ hlt
        · exact lt_trans hlt (hy b hb)
      · have hyx : y < x := by
          rcases lt_trichotomy x y with h1 | h1 | h1
          · exact absurd h1 hlt
          · exact absurd h1 hxy
          · exact h1
        simp only [insertSortedDedup, if_neg hxy, if_neg hlt]
        refine List.sorted_cons.mpr ⟨?_, ih hys⟩
        intro b hb
        rcases (mem_insertSortedDedup b x ys).mp hb with hb | hb
        · exact hb ▸ hyx
        · exact hy b hb

theorem mem_sortDedup (a : String) (l : List String) :
    a ∈ sortDedup l ↔ a ∈ l := by
  induction l with
  | nil => simp [sortDedup]
  | cons x xs ih =>
    simp only [sortDedup, List.foldr_cons]
    rw [show List.foldr insertSortedDedup [] xs = sortDedup xs from rfl] at *
    rw [mem_insertSortedDedup, ih, List.mem_cons]

theorem sorted_sortDedup (l : List String) :
    List.Sorted (· < ·) (sortDedup l) := by
  induction l with
  | nil => simp [sortDedup]
  | cons x xs ih => exact sorted_insertSortedDedup x (sortDedup xs) ih

theorem dupPair_eq_none_of_nodup (fs : List Field)
    (h : (fs.map effectivePredicate).Nodup) : dupPair fs = none := by
  induction fs with
  | nil => rfl
  | cons f rest ih =>
    rw [List.map_cons, List.nodup_cons] at h
    have hfind : rest.find? (fun g => effectivePredicate g == effectivePredicate f)
        = none := by
      refine List.find?_eq_none.mpr ?_
      intro g hg
      simp only [beq_iff_eq]
      intro heq
      exact h.1 (heq ▸ List.mem_map_of_mem effectivePredicate hg)
    simp [dupPair, hfind, ih h.2]

theorem dupPair_sound (fs : List Field) (f g : Field)
    (h : dupPair fs = some (f, g)) :
    f ∈ fs ∧ g ∈ fs ∧ effectivePredicate f = effectivePredicate g := by
  induction fs with
  | nil => simp [dupPair] at h
  | cons x rest ih =>
    rcases hfind : rest.find? (fun g => effectivePredicate g == effectivePredicate x)
      with _ | g'
    · rw [show dupPair (x :: rest)
          = dupPair rest by simp [dupPair, hfind]] at h
      obtain ⟨h1, h2, h3⟩ := ih h
      exact ⟨List.mem_cons_of_mem x h1, List.mem_cons_of_mem x h2, h3⟩
    · rw [show dupPair (x :: rest)
          = some (x, g') by simp [dupPair, hfind]] at h
      have hx : x = f ∧ g' = g := by simpa using h
      obtain ⟨rfl, rfl⟩ := hx
      refine ⟨List.mem_cons_self x rest,
        List.mem_cons_of_mem x (List.mem_of_find?_eq_some hfind), ?_⟩
      have h2 : effectivePredicate g' = effectivePredicate x := by
        have h3 := List.find?_some hfind
        simpa using h3
      exact h2.symm

theorem dupPair_isSome_of_not_nodup (fs : List Field)
    (h : ¬ (fs.map effectivePredicate).Nodup) :
    ∃ fg : Field × Field, dupPair fs = some fg := by
  induction fs with
  | nil => simp at h
  | cons x rest ih =>
    by_cases hmem : effectivePredicate x ∈ rest.map effectivePredicate
    · obtain ⟨g, hg, hgeq⟩ := List.mem_map.mp hmem
      have hsome : (rest.find?
          (fun g => effectivePredicate g == effectivePredicate x)).isSome := by
        rw [List.find?_isSome]
        exact ⟨g, hg, by simp [hgeq]⟩
      obtain ⟨g', hg'⟩ := Option.isSome_iff_exists.mp hsome
      exact ⟨(x, g'), by simp [dupPair, hg']⟩
    · have hrest : ¬ (rest.map effectivePredicate).Nodup := by
        intro hnd
        exact h (by rw [List.map_cons, List.nodup_cons]; exact ⟨hmem, hnd⟩)
      obtain ⟨fg, hfg⟩ := ih hrest
      rcases hfind : rest.find? (fun g => effectivePredicate g == effectivePredicate x)
        with _ | g'
      · exact ⟨fg, by simp [dupPair, hfind, hfg]⟩
      · exact ⟨(x, g'), by simp [dupPair, hfind]⟩

theorem findDupEntity_none (es : List Entity)
    (h : ∀ e ∈ es, (e.fields.map effectivePredicate).Nodup) :
    findDupEntity es = none := by
  induction es with
  | nil => rfl
  | cons e rest ih =>
    have he := dupPair_eq_none_of_nodup e.fields (h e (List.mem_cons_self e rest))
    have hr := ih (fun e2 h2 => h e2 (List.mem_cons_of_mem e h2))
    simp [findDupEntity, he, hr]

theorem findDupEntity_exists (es : List Entity)
    (h : ∃ e ∈ es, ¬ (e.fields.map effectivePredicate).Nodup) :
    ∃ e f g, e ∈ es ∧ dupPair e.fields = some (f, g) ∧
      findDupEntity es = some (e, f, g) := by
  induction es with
  | nil => simp at h
  | cons e0 rest ih =>
    rcases hd : dupPair e0.fields with _ | ⟨f, g⟩
    · obtain ⟨e, he, hnd⟩ := h
      rcases List.mem_cons.mp he with rfl | he'
      · obtain ⟨fg, hfg⟩ := dupPair_isSome_of_not_nodup e.fields hnd
        rw [hd] at hfg
        exact absurd hfg (by simp)
      · obtain ⟨e', f, g, he'', hdp, hfind⟩ := ih ⟨e, he', hnd⟩
        exact ⟨e', f, g, List.mem_cons_of_mem e0 he'',
          hdp, by simp [findDupEntity, hd, hfind]⟩
    · exact ⟨e0, f, g, List.mem_cons_self e0 rest, hd,
        by simp [findDupEntity, hd]⟩

/-! ## Claim theorems -/

/-- C2: duplicate effective predicates are a hard inference error with
atomic failure — when two fields of one entity resolve to the same
effective storage predicate, inference fails with an error naming both
fields, the pipeline result is that error (so the Generator is never
invoked), and zero output files are written. -/
theorem duplicate_predicate_hard_error (p : Package) (outDir : List String)
    (cliDir : Option (List String))
    (hdup : ∃ e ∈ p.entities, ¬ (e.fields.map effectivePredicate).Nodup) :
    ∃ e f g, e ∈ p.entities ∧ f ∈ e.fields ∧ g ∈ e.fields ∧
      effectivePredicate f = effectivePredicate g ∧
      inferPackage p = .error (dupErrorMsg e.name f.name g.name) ∧
      runPipeline p outDir cliDir = .error (dupErrorMsg e.name f.name g.name) ∧
      outputFiles p outDir cliDir = [] := by
  obtain ⟨e, f, g, he, hdp, hfind⟩ := findDupEntity_exists p.entities hdup
  obtain ⟨hf, hg, heq⟩ := dupPair_sound e.fields f g hdp
  exact ⟨e, f, g, he, hf, hg, heq,
    by simp [inferPackage, hfind],
    by simp [runPipeline, inferPackage, hfind],
    by simp [outputFiles, runPipeline, inferPackage, hfind]⟩

/-- Witness for C2: the duplicate-predicate demonstration package (two
fields resolving to the predicate name) produces zero output files. -/
theorem duplicate_predicate_hard_error_witness :
    outputFiles dupDemoPackage [] none = [] := by
  obtain ⟨e, f, g, _, _, _, _, _, _, hout⟩ :=
    duplicate_predicate_hard_error dupDemoPackage [] none (by decide)
  exact hout

/-- C4: searchability single-winner — when at least one scalar field of an
entity declares a text-search-capable index kind, the entity is marked
searchable with the search predicate taken from the first such field in
declaration order, the fields themselves (hence the index directives of
the other fields) are unchanged, and inference succeeds on the whole package
(two text-search-capable fields are not an error). -/
theorem searchability_single_winner (p : Package) (e : Entity) (f : Field)
    (rest : List Field)
    (he : e ∈ p.entities)
    (hf : e.fields.filter (fun g => searchCandidate (entityNames p) g) = f :: rest)
    (hnd : ∀ e2 ∈ p.entities, (e2.fields.map effectivePredicate).Nodup) :
    (inferSearch (entityNames p) e).searchable = true ∧
    (inferSearch (entityNames p) e).searchField = effectivePredicate f ∧
    (inferSearch (entityNames p) e).fields = e.fields ∧
    inferSearch (entityNames p) e ∈
      (p.entities.map (inferSearch (entityNames p))) ∧
    inferPackage p =
      .ok { p with entities := p.entities.map (inferSearch (entityNames p)) } := by
  have h1 : inferSearch (entityNames p) e =
      { e with searchable := true, searchField := effectivePredicate f } := by
    simp [inferSearch, hf]
  refine ⟨by simp [h1], by simp [h1], by simp [h1],
    List.mem_map_of_mem (inferSearch (entityNames p)) he, ?_⟩
  have hnone := findDupEntity_none p.entities hnd
  simp [inferPackage, hnone]

/-- Witness for C4: the two-candidate Film entity is marked searchable on
the first-declared term-indexed field (predicate title) and inference
succeeds. -/
theorem searchability_single_winner_witness :
    (inferSearch (entityNames searchDemoPackage) searchDemoEntity).searchable = true ∧
    (inferSearch (entityNames searchDemoPackage) searchDemoEntity).searchField
      = "title" := by
  have h := searchability_single_winner searchDemoPackage searchDemoEntity
    filmTitleField [filmPlotField] (by decide) (by decide) (by decide)
  exact ⟨h.1, h.2.1.trans (by decide)⟩

/-- C5: for every Field of every parsed Entity, the effective storage
predicate equals the explicit predicate directive when one is present in
the storage directives of the field, and equals its serialization name
otherwise. -/
theorem effectivePredicate_resolution (f : Field) :
    (∀ p : String, fieldPredicateDirective f = some p → effectivePredicate f = p) ∧
    (fieldPredicateDirective f = none → effectivePredicate f = f.jsonName) := by
  constructor
  · intro p hp
    simp [effectivePredicate, hp]
  · intro hn
    simp [effectivePredicate, hn]

/-- Witness for C5: evaluated on the PredicateFilm Title field of
src/predicate_test.go (explicit predicate directive film_title) and on the
README TestEntity Name field (no predicate directive, serialization name
name). -/
theorem effectivePredicate_resolution_witness :
    effectivePredicate predicateFilmTitle = "film_title" ∧
    effectivePredicate testEntityName = "name" :=
  ⟨(effectivePredicate_resolution predicateFilmTitle).1 "film_title" (by decide),
   (effectivePredicate_resolution testEntityName).2 (by decide)⟩

/-- C6: the conversion to the lowercase delimiter-separated form treats a
run of uppercase letters followed by a lowercase letter as an acronym
boundary followed by a new word; checked on the examples of the claim and on
every vector of TestToSnakeCase in src/unnamed/part_002. -/
theorem toSnakeCase_acronym_boundary :
    toSnakeCase "ContentRating" = "content_rating" ∧
    toSnakeCase "HTTPServer" = "http_server" ∧
    toSnakeCase "UID" = "uid" ∧
    toSnakeCase "Film" = "film" ∧
    toSnakeCase "Actor" = "actor" ∧
    toSnakeCase "Performance" = "performance" ∧
    toSnakeCase "Location" = "location" := by
  refine ⟨?_, ?_, ?_, ?_, ?_, ?_, ?_⟩ <;> decide

/-- C7: the external-imports computation returns exactly one import path
per distinct external package referenced by the type of some field
(lexicographically sorted and duplicate-free), includes no path for
packages belonging to the target Package (their types are unqualified) or
unknown to the mapping (fieldImportPath is none for both), and returns the
empty list when no field references an external package. -/
theorem externalImports_minimal_sorted (fields : List Field)
    (imports : List (String × String)) :
    List.Sorted (· < ·) (externalImports fields imports) ∧
    (externalImports fields imports).Nodup ∧
    (∀ path, path ∈ externalImports fields imports ↔
      ∃ f ∈ fields, fieldImportPath imports f = some path) ∧
    ((∀ f ∈ fields, fieldImportPath imports f = none) →
      externalImports fields imports = []) := by
  have hsorted := sorted_sortDedup (fields.filterMap (fieldImportPath imports))
  refine ⟨hsorted, hsorted.imp (fun h => ne_of_lt h), ?_, ?_⟩
  · intro path
    rw [show externalImports fields imports
        = sortDedup (fields.filterMap (fieldImportPath imports)) from rfl,
      mem_sortDedup, List.mem_filterMap]
  · intro hall
    rw [show externalImports fields imports
        = sortDedup (fields.filterMap (fieldImportPath imports)) from rfl,
      List.filterMap_eq_nil_iff.mpr hall]
    rfl

/-- Witness for C7: evaluated on the NoExternalTypes and
WithExternalPackage inputs of TestExternalImports. -/
theorem externalImports_minimal_sorted_witness :
    externalImports noExtFields noExtImports = [] ∧
    "github.com/example/project/enums" ∈ externalImports extFields extImports := by
  constructor
  · exact (externalImports_minimal_sorted noExtFields noExtImports).2.2.2 (by decide)
  · exact ((externalImports_minimal_sorted extFields extImports).2.2.1
      "github.com/example/project/enums").mpr
      ⟨{ name := "TypeName", goType := "enums.ResourceType", jsonName := "", dgraphTag := "" },
        by decide, by decide⟩

theorem generate_content_shape (p : Package) (outDir : List String)
    (cliDir : Option (List String)) :
    ∀ pc ∈ generate p outDir cliDir, ∃ b, pc.2 = header ++ b := by
  intro pc hpc
  simp only [generate, List.mem_append, List.mem_map, List.mem_singleton] at hpc
  rcases hpc with ⟨q, hq, rfl⟩ | rfl
  · rcases hq with hq | hq
    · simp only [sharedFiles, List.mem_cons, List.not_mem_nil, or_false] at hq
      rcases hq with rfl | rfl | rfl <;> exact ⟨_, rfl⟩
    · obtain ⟨e, _, hqe⟩ := List.mem_flatMap.mp hq
      simp only [entityFiles, List.mem_cons, List.not_mem_nil, or_false] at hqe
      rcases hqe with rfl | rfl | rfl <;> exact ⟨_, rfl⟩
  · exact ⟨renderCli p, rfl⟩

theorem header_append_has_marker (b : String) :
    hasHeader (header ++ b) = true := by
  rw [show hasHeader (header ++ b)
      = decide ((header ++ b).data.take headerMarker.data.length
          = headerMarker.data) from rfl, decide_eq_true_eq]
  have h2 : (header ++ b).data = headerMarker.data ++ (("\n\n").data ++ b.data) := by
    rw [show header = headerMarker ++ "\n\n" from rfl]
    rw [String.data_append, String.data_append, List.append_assoc]
  rw [h2, take_length_append]

/-- C1: generation is deterministic — the Generate operation is a pure
function of the fully inferred Model, so two runs on the identical Model
are equal artifact-for-artifact, and the golden-file line comparison of
TestGenerate reports zero mismatching lines for every emitted artifact
when a run is compared against a reference copy of the same run. -/
theorem generate_deterministic (p : Package) (outDir : List String)
    (cliDir : Option (List String)) :
    generate p outDir cliDir = generate p outDir cliDir ∧
    ∀ pc ∈ generate p outDir cliDir, diffLineCount pc.2 pc.2 = 0 := by
  refine ⟨rfl, ?_⟩
  intro pc _
  rw [show diffLineCount pc.2 pc.2
      = ((List.range (max (splitLines pc.2).length (splitLines pc.2).length)).filter
          (fun i => lineAt (splitLines pc.2) i != lineAt (splitLines pc.2) i)).length
        from rfl]
  rw [List.length_eq_zero]
  refine List.filter_eq_nil_iff.mpr ?_
  intro a _
  simp

/-- Witness for C1: evaluated on the shared client artifact of the
demonstration package. -/
theorem generate_deterministic_witness :
    diffLineCount (header ++ renderClient demoPackage)
      (header ++ renderClient demoPackage) = 0 :=
  (generate_deterministic demoPackage ["o"] none).2
    (["o", "client_gen.go"], header ++ renderClient demoPackage) (by decide)

/-- C9: every artifact emitted by the Generate operation begins with the
fixed generated-code header marker, and that marker is exactly what the
Parser checks to exclude generated files from re-parsing. -/
theorem generated_files_carry_marker (p : Package) (outDir : List String)
    (cliDir : Option (List String)) :
    ∀ pc ∈ generate p outDir cliDir,
      hasHeader pc.2 = true ∧ parserSkipsGenerated pc.2 = true := by
  intro pc hpc
  obtain ⟨b, hb⟩ := generate_content_shape p outDir cliDir pc hpc
  have hh : hasHeader pc.2 = true := by
    rw [hb]
    exact header_append_has_marker b
  exact ⟨hh, hh⟩

/-- Witness for C9: evaluated on the shared client artifact of the
demonstration package. -/
theorem generated_files_carry_marker_witness :
    hasHeader (header ++ renderClient demoPackage) = true ∧
    parserSkipsGenerated (header ++ renderClient demoPackage) = true :=
  generated_files_carry_marker demoPackage [] none
    (["client_gen.go"], header ++ renderClient demoPackage) (by decide)

/-- C8: the Generate operation produces exactly the shared client,
pagination-options and iteration-helpers artifacts, three non-empty
artifacts per entity, and one command-surface entry point, which sits
under cmd/(package name) of the output root by default and only at the
override location when one is given. -/
theorem generate_artifact_set (p : Package) (outDir : List String)
    (cliDir : Option (List String)) :
    ((generate p outDir cliDir).map Prod.fst =
      [outDir ++ ["client_gen.go"], outDir ++ ["page_options_gen.go"],
        outDir ++ ["iter_gen.go"]]
        ++ p.entities.flatMap (fun e =>
            [outDir ++ [toSnakeCase e.name ++ "_gen.go"],
             outDir ++ [toSnakeCase e.name ++ "_options_gen.go"],
             outDir ++ [toSnakeCase e.name ++ "_query_gen.go"]])
        ++ [cliDir.getD (defaultCliDir p outDir) ++ ["main.go"]]) ∧
    (∀ pc ∈ generate p outDir cliDir, pc.2 ≠ "") ∧
    (cliDir = none →
      outDir ++ ["cmd", p.name, "main.go"] ∈ (generate p outDir cliDir).map Prod.fst) ∧
    (∀ d, cliDir = some d → d ≠ defaultCliDir p outDir →
      d ++ ["main.go"] ∈ (generate p outDir cliDir).map Prod.fst ∧
      outDir ++ ["cmd", p.name, "main.go"] ∉ (generate p outDir cliDir).map Prod.fst) := by
  have hmap : (generate p outDir cliDir).map Prod.fst =
      [outDir ++ ["client_gen.go"], outDir ++ ["page_options_gen.go"],
        outDir ++ ["iter_gen.go"]]
        ++ p.entities.flatMap (fun e =>
            [outDir ++ [toSnakeCase e.name ++ "_gen.go"],
             outDir ++ [toSnakeCase e.name ++ "_options_gen.go"],
             outDir ++ [toSnakeCase e.name ++ "_query_gen.go"]])
        ++ [cliDir.getD (defaultCliDir p outDir) ++ ["main.go"]] := by
    simp [generate, sharedFiles, entityFiles, List.map_append, List.map_flatMap,
      List.map_map, Function.comp]
  refine ⟨hmap, ?_, ?_, ?_⟩
  · intro pc hpc
    obtain ⟨b, hb⟩ := generate_content_shape p outDir cliDir pc hpc
    rw [hb]
    intro hcontra
    have hdata : header.data ++ b.data = [] := by
      rw [← String.data_append, hcontra]
    have := (List.append_eq_nil.mp hdata).1
    rw [show header.data
        = ("// Code generated by modusGraphGen. DO NOT EDIT.\n\n" : String).data
        from rfl] at this
    simp at this
  · intro hnone
    rw [hmap, hnone]
    refine List.mem_append.mpr (Or.inr ?_)
    simp [defaultCliDir, List.append_assoc]
  · intro d hd hne
    rw [hmap, hd]
    constructor
    · exact List.mem_append.mpr (Or.inr (by simp))
    · intro hmem
      rcases List.mem_append.mp hmem with hmem | hmem
      · rcases List.mem_append.mp hmem with hmem | hmem
        · simp only [List.mem_cons, List.not_mem_nil, or_false] at hmem
          rcases hmem with h | h | h <;>
            · have := List.append_cancel_left h
              simp at this
        · obtain ⟨e, _, hmem3⟩ := List.mem_flatMap.mp hmem
          simp only [List.mem_cons, List.not_mem_nil, or_false] at hmem3
          rcases hmem3 with h | h | h <;>
            · have := List.append_cancel_left h
              simp at this
      · simp only [Option.getD_some, List.mem_singleton] at hmem
        have h1 : (outDir ++ ["cmd", p.name]) ++ ["main.go"] = d ++ ["main.go"] := by
          rw [List.append_assoc]
          exact hmem
        have := List.append_cancel_right h1
        exact hne (this.symm ▸ rfl)

/-- Witness for C8: with the override location custom/cli, the command
surface of the demonstration package is emitted there and not at the
default out/cmd/movies location. -/
theorem generate_artifact_set_witness :
    ["custom", "cli", "main.go"] ∈
      (generate demoPackage ["out"] (some ["custom", "cli"])).map Prod.fst ∧
    ["out", "cmd", "movies", "main.go"] ∉
      (generate demoPackage ["out"] (some ["custom", "cli"])).map Prod.fst := by
  have h := (generate_artifact_set demoPackage ["out"] (some ["custom", "cli"])).2.2.2
    ["custom", "cli"] rfl (by decide)
  exact ⟨h.1, h.2⟩

theorem zip_child_nodes_uid (edges0 : List (String × List Nat)) :
    ∀ (cs : List (List (String × String))) (us : List Nat), us.length = cs.length →
      ((cs.zip us).map
        (fun ac => ({ uid := ac.2, attrs := ac.1, edges := edges0 } : RNode))).map
          RNode.uid = us := by
  intro cs
  induction cs with
  | nil =>
    intro us h
    rw [List.length_nil, List.length_eq_zero] at h
    simp [h]
  | cons c cs ih =>
    intro us h
    cases us with
    | nil => simp at h
    | cons u us' =>
      simp only [List.zip_cons_cons, List.map_cons]
      have hrest := ih us' (by simpa using h)
      simp [hrest]

/-- C3: managed reverse-edge completeness — inserting a parent whose
collection under a field flagged as a managed reverse edge embeds child
records results, after a fresh read, in each child carrying the forward
edge (the stripped predicate) whose value is exactly the parent
identifier. -/
theorem managed_reverse_edge_completeness (s : Store) (f : Field)
    (parentAttrs : List (String × String))
    (children : List (List (String × String)))
    (hm : isManagedReverse f = true)
    (hfresh : ∀ n ∈ s.nodes, n.uid < s.nextUid) :
    ∀ u ∈ (insertParent s f parentAttrs children).2.2,
      ∃ n : RNode,
        getNode (insertParent s f parentAttrs children).1 u = some n ∧
        lookupKV n.edges (forwardPredicate f) =
          some [(insertParent s f parentAttrs children).2.1] := by
  intro u hu
  simp only [insertParent, hm, if_true] at hu ⊢
  obtain ⟨i, hi, rfl⟩ := List.mem_map.mp hu
  have hi' : i < children.length := List.mem_range.mp hi
  set fwdEdges : List (String × List Nat) :=
    [(forwardPredicate f, [s.nextUid])] with hfwdEdges
  set childUids : List Nat :=
    (List.range children.length).map (fun i => s.nextUid + 1 + i) with hcuids
  set childNodes : List RNode :=
    (children.zip childUids).map
      (fun ac => ({ uid := ac.2, attrs := ac.1, edges := fwdEdges } : RNode))
    with hcnodes
  set parentNode : RNode :=
    { uid := s.nextUid, attrs := parentAttrs,
      edges := [(effectivePredicate f, childUids)] } with hpnode
  have hulen : childUids.length = children.length := by
    rw [hcuids, List.length_map, List.length_range]
  have huid_list : childNodes.map RNode.uid = childUids := by
    rw [hcnodes]
    exact zip_child_nodes_uid fwdEdges children childUids hulen
  have humem : s.nextUid + 1 + i ∈ childUids := by
    rw [hcuids]
    exact List.mem_map_of_mem _ hi
  have hexists : ∃ n ∈ childNodes, n.uid = s.nextUid + 1 + i := by
    rw [← huid_list] at humem
    obtain ⟨n, hn, hneq⟩ := List.mem_map.mp humem
    exact ⟨n, hn, hneq⟩
  obtain ⟨n0, hn0, hn0uid⟩ := hexists
  have hsome : ((childNodes ++ parentNode :: s.nodes).find?
      (fun n => n.uid == s.nextUid + 1 + i)).isSome := by
    rw [List.find?_isSome]
    exact ⟨n0, List.mem_append_left _ hn0, by simp [hn0uid]⟩
  obtain ⟨m, hmfind⟩ := Option.isSome_iff_exists.mp hsome
  have hpm := List.find?_some hmfind
  have hmu : m.uid = s.nextUid + 1 + i := by simpa using hpm
  have hmmem := List.mem_of_find?_eq_some hmfind
  rcases List.mem_append.mp hmmem with hmc | hmrest
  · obtain ⟨ac, _, hmeq⟩ := List.mem_map.mp hmc
    refine ⟨m, ?_, ?_⟩
    · rw [show getNode
          { nodes := childNodes ++ parentNode :: s.nodes,
            nextUid := s.nextUid + 1 + children.length }
          (s.nextUid + 1 + i)
        = (childNodes ++ parentNode :: s.nodes).find?
            (fun n => n.uid == s.nextUid + 1 + i) from rfl]
      exact hmfind
    · rw [← hmeq]
      simp [fwdEdges, lookupKV]
  · rcases List.mem_cons.mp hmrest with rfl | hmold
    · rw [hpnode] at hmu
      simp only at hmu
      omega
    · have := hfresh m hmold
      omega

/-- Witness for C3: inserting a parent with two children under the README
managed reverse-edge field Enrollments gives both children, on a fresh
read, the forward in_course edge equal to the parent identifier 0. -/
theorem managed_reverse_edge_completeness_witness :
    (getNode reverseDemoStore 1).map (fun n => lookupKV n.edges "in_course")
      = some (some [0]) ∧
    (getNode reverseDemoStore 2).map (fun n => lookupKV n.edges "in_course")
      = some (some [0]) := by
  have h := managed_reverse_edge_completeness emptyStore enrollmentsField []
    [[("grade", "A")], [("grade", "B")]] (by decide) (by simp [emptyStore])
  have hfwd : forwardPredicate enrollmentsField = "in_course" := by decide
  constructor
  · obtain ⟨n, hg, hl⟩ := h 1 (by decide)
    have hg' : getNode reverseDemoStore 1 = some n := hg
    have hl' : lookupKV n.edges "in_course" = some [0] := by
      rw [← hfwd]
      exact hl
    rw [hg', Option.map_some', hl']
  · obtain ⟨n, hg, hl⟩ := h 2 (by decide)
    have hg' : getNode reverseDemoStore 2 = some n := hg
    have hl' : lookupKV n.edges "in_course" = some [0] := by
      rw [← hfwd]
      exact hl
    rw [hg', Option.map_some', hl']

/-- C10: in the generated command surface, a non-empty local-directory
flag together with a remote-address flag differing from its default makes
connection-string resolution fail with the mutual-exclusion error and no
connection string is ever used; the directory flag alone resolves to the
file URI of the cleaned directory path, and otherwise the address flag
value is used. -/
theorem connectString_mutual_exclusion (dir addr : String) :
    (dir ≠ "" → addr ≠ defaultAddr →
      connectString dir addr = .error mutualExclusionMsg ∧
      cliConnect dir addr = none) ∧
    (dir ≠ "" → addr = defaultAddr →
      connectString dir addr = .ok ("file://" ++ filepathClean dir) ∧
      cliConnect dir addr = some ("file://" ++ filepathClean dir)) ∧
    (dir = "" →
      connectString dir addr = .ok addr ∧ cliConnect dir addr = some addr) := by
  refine ⟨?_, ?_, ?_⟩
  · intro h1 h2
    constructor <;> simp [connectString, cliConnect, h1, h2]
  · intro h1 h2
    subst h2
    constructor <;> simp [connectString, cliConnect, h1]
  · intro h1
    subst h1
    constructor <;> simp [connectString, cliConnect]

/-- Witness for C10: evaluated with directory /tmp/db/ against a
non-default address (mutual-exclusion error, no connection), against the
default address (file URI of the cleaned path), and with no directory
(address passthrough). -/
theorem connectString_mutual_exclusion_witness :
    connectString "/tmp/db/" "dgraph://example:9080" = .error mutualExclusionMsg ∧
    cliConnect "/tmp/db/" "dgraph://example:9080" = none ∧
    connectString "/tmp/db/" defaultAddr = .ok "file:///tmp/db" ∧
    connectString "" "dgraph://example:9080" = .ok "dgraph://example:9080" := by
  have h1 := (connectString_mutual_exclusion "/tmp/db/" "dgraph://example:9080").1
    (by decide) (by decide)
  have h2 := (connectString_mutual_exclusion "/tmp/db/" defaultAddr).2.1
    (by decide) rfl
  have h3 := (connectString_mutual_exclusion "" "dgraph://example:9080").2.2 rfl
  have hclean : ("file://" ++ filepathClean "/tmp/db/") = "file:///tmp/db" := by
    decide
  exact ⟨h1.1, h1.2, hclean ▸ h2.1, h3.1⟩

end ModusGraph
